import Mathlib

/-!
Verification of the server-side feed-collection engine of the rss_r repository.

Shallow embedding conventions:
- Rust strings (String, str, Url) are modeled by their UTF-8 byte sequences,
  as List Nat.  Rust derives Ord on String and on the Url newtype, which is
  byte-lexicographic, and UTF-8 byte order coincides with the order used here.
- HashMap κ ν is modeled as an association list List (κ × ν) in iteration
  order; lookup finds the first binding (keys are unique in all reachable
  states, so first-match lookup agrees with HashMap lookup).
- chrono DateTime is modeled as Int (its Ord is chronological).
- Result is modeled by dedicated inductives; machine integers of the hash
  are Nat with explicit reduction modulo 2 ^ 32.
-/


/-- Bytes of a Rust string (UTF-8). -/
abbrev StrB := List Nat

/-- Url newtype around String (rss_com_lib/src/lib.rs). Equality and order are
byte equality and byte-lexicographic order of the inner string. -/
abbrev Url := StrB

/-- UserId newtype around a small integer (src/users.rs). -/
abbrev UserId := Nat

/-- EntryKey, a 32-byte blake3 digest (rss_com_lib/src/rss_feed.rs). -/
abbrev EntryKey := List Nat

/-- FeedEntry (rss_com_lib/src/rss_feed.rs): title, optional link,
publication date, read flag. -/
structure FeedEntry where
  title : StrB
  link : Option Url
  pub_date : Int
  read : Bool
deriving DecidableEq, Repr

/-- Result of the most recent refresh of a feed, Result of unit and String in
the source. -/
inductive UpdateOutcome where
  | ok : UpdateOutcome
  | error (msg : StrB) : UpdateOutcome
deriving DecidableEq, Repr

/-- FeedInfo: display name, tag set (modeled as a list of strings), and the
outcome of the most recent refresh.  The field last_update_result is the one
written by RssFeed::update_entries in src/src/rss_collection.rs. -/
structure FeedInfo where
  name : StrB
  tags : List StrB
  last_update_result : UpdateOutcome
deriving DecidableEq, Repr

/-- FeedEntries: the keyed entry map of one feed, in iteration order. -/
abbrev FeedEntries := List (EntryKey × FeedEntry)

/-- RssFeed (src/src/rss_collection.rs): one feed's info plus entry map. -/
structure RssFeed where
  info : FeedInfo
  entries : FeedEntries
deriving DecidableEq, Repr

/-- The argument of RssFeed::update_entries: Result of FeedEntries, String. -/
inductive FetchResult where
  | ok (entries : FeedEntries) : FetchResult
  | err (msg : StrB) : FetchResult
deriving DecidableEq, Repr

/-- First-match lookup in an association list (HashMap::get). -/
def findA {κ ν : Type} [DecidableEq κ] (k : κ) : List (κ × ν) → Option ν
  | [] => none
  | (k', v) :: t => if k = k' then some v else findA k t

/-- Replace the value of the first binding of a key, if present
(mutation through HashMap::get_mut). -/
def setA {κ ν : Type} [DecidableEq κ] (k : κ) (v : ν) : List (κ × ν) → List (κ × ν)
  | [] => []
  | (k', v') :: t => if k = k' then (k', v) :: t else (k', v') :: setA k v t

/-- HashMap::entry(key).or_insert(value): insert the binding only when the key
is absent. -/
def orInsert (m : FeedEntries) (k : EntryKey) (v : FeedEntry) : FeedEntries :=
  match findA k m with
  | some _ => m
  | none => m ++ [(k, v)]

/-- RssFeed::update_entries (src/src/rss_collection.rs lines 147-160): on a
successful fetch, insert each fetched entry only if its key is absent and
record a successful update; on a failed fetch, record the error and leave the
entries untouched. -/
def RssFeed.update_entries (feed : RssFeed) (maybe_entries : FetchResult) : RssFeed :=
  match maybe_entries with
  | .ok entries =>
      { feed with
        entries := entries.foldl (fun m kv => orInsert m kv.1 kv.2) feed.entries,
        info := { feed.info with last_update_result := .ok } }
  | .err error =>
      { feed with info := { feed.info with last_update_result := .error error } }

/-- Generic three-way comparison of a linear order, matching the Ord
instances Rust derives for integers, timestamps and bool (false before
true). -/

def cmpLin {α : Type} [LinearOrder α] (a b : α) : Ordering :=
  if a < b then .lt else if b < a then .gt else .eq

/-- Lexicographic comparison of lists, matching the derived Ord of Rust
slices, Vec, String bytes and fixed arrays: a strict prefix is smaller. -/
def cmpList {α : Type} (c : α → α → Ordering) : List α → List α → Ordering
  | [], [] => .eq
  | [], _ :: _ => .lt
  | _ :: _, [] => .gt
  | a :: as, b :: bs => (c a b).then (cmpList c as bs)

/-- Comparison of Option, matching the derived Ord of Rust Option:
None is smaller than Some. -/
def cmpOpt {α : Type} (c : α → α → Ordering) : Option α → Option α → Ordering
  | none, none => .eq
  | none, some _ => .lt
  | some _, none => .gt
  | some a, some b => c a b

/-- The three properties of a comparator that the orderings derived and
written in the source satisfy: antisymmetry by swap, transitivity of the
strict part, and substitutivity of the equal part. -/
structure IsLawfulCmp {α : Type} (c : α → α → Ordering) : Prop where
  symm : ∀ a b, c a b = (c b a).swap
  lt_trans : ∀ {a b d}, c a b = .lt → c b d = .lt → c a d = .lt
  eq_substL : ∀ {a b}, c a b = .eq → ∀ d, c b d = c a d

/-- ComFeedEntry (rss_com_lib/src/message_body.rs): the external projection
of one entry sent to the client. -/
structure ComFeedEntry where
  key : EntryKey
  feed_url : Url
  title : StrB
  link : Option Url
  pub_date : Int
  read : Bool
deriving DecidableEq, Repr

/-- ComFeedEntry::new (rss_com_lib/src/message_body.rs lines 101-112). -/
def ComFeedEntry.new (feed_url : Url) (key : EntryKey) (entry : FeedEntry) : ComFeedEntry :=
  { key := key
    feed_url := feed_url
    title := entry.title
    link := entry.link
    pub_date := entry.pub_date
    read := entry.read }

/-- Ord for ComFeedEntry (rss_com_lib/src/message_body.rs lines 120-153):
pub_date compared in reverse (newest first), then title, link, read and key
ascending; feed_url does not participate. -/
def cmpCom (a b : ComFeedEntry) : Ordering :=
  ((cmpLin b.pub_date a.pub_date).then
    ((cmpList cmpLin a.title b.title).then
      ((cmpOpt (cmpList cmpLin) a.link b.link).then
        ((cmpLin a.read b.read).then
          (cmpList cmpLin a.key b.key)))))

/-- The non-strict order Vec::sort establishes for the Ord of ComFeedEntry. -/
def comLe (a b : ComFeedEntry) : Prop := cmpCom a b ≠ .gt

instance : DecidableRel comLe := fun a b =>
  inferInstanceAs (Decidable (cmpCom a b ≠ .gt))

/-- EntryTypeFilter (rss_com_lib/src/message_body.rs lines 50-63). -/
inductive EntryTypeFilter where
  | all : EntryTypeFilter
  | unread : EntryTypeFilter
deriving DecidableEq, Repr

/-- EntryTypeFilter::apply. -/
def EntryTypeFilter.apply (f : EntryTypeFilter) (entry : FeedEntry) : Bool :=
  match f with
  | .all => true
  | .unread => !entry.read

/-- FeedsFilter (rss_com_lib/src/message_body.rs lines 42-48). -/
inductive FeedsFilter where
  | all : FeedsFilter
  | tag (t : StrB) : FeedsFilter
  | single (url : Url) : FeedsFilter
deriving DecidableEq, Repr

/-- A user's collection: Url to RssFeed, in iteration order. -/
abbrev RssCollection := List (Url × RssFeed)

/-- The entries of one feed that pass the entry filter, projected for the
client (the inner iterator chain of get_sorted_com_entries_with_filter). -/
def feedComEntries (url : Url) (feed : RssFeed) (ef : EntryTypeFilter) :
    List ComFeedEntry :=
  (feed.entries.filter (fun kv => ef.apply kv.2)).map
    (fun kv => ComFeedEntry.new url kv.1 kv.2)

/-- The flattening phase of get_sorted_com_entries_with_filter
(src/src/rss_collection.rs lines 64-95), before sorting. -/
def collectEntries (c : RssCollection) (ff : FeedsFilter) (ef : EntryTypeFilter) :
    List ComFeedEntry :=
  match ff with
  | .all => (c.map (fun uf => feedComEntries uf.1 uf.2 ef)).flatten
  | .tag t =>
      ((c.filter (fun uf => uf.2.info.tags.contains t)).map
        (fun uf => feedComEntries uf.1 uf.2 ef)).flatten
  | .single url =>
      match findA url c with
      | some feed => feedComEntries url feed ef
      | none => []

/-- RssCollection::get_sorted_com_entries_with_filter
(src/src/rss_collection.rs lines 58-102): flatten the matching feeds'
matching entries, sort them (Vec::sort is a stable sort by Ord, modeled by
the stable insertion sort), record the total, truncate to amount. -/
def get_sorted_com_entries_with_filter (c : RssCollection) (amount : Nat)
    (feed_filter : FeedsFilter) (entry_filter : EntryTypeFilter) :
    List ComFeedEntry × Nat :=
  let entries := List.insertionSort comLe (collectEntries c feed_filter entry_filter)
  let total := entries.length
  (entries.take amount, total)

/-- The number of entries matching both the feed filter and the entry filter,
stated independently of the view pipeline as a sum of per-feed counts. -/
def countMatching (c : RssCollection) (ff : FeedsFilter) (ef : EntryTypeFilter) : Nat :=
  match ff with
  | .all => (c.map (fun uf => uf.2.entries.countP (fun kv => ef.apply kv.2))).sum
  | .tag t =>
      ((c.filter (fun uf => uf.2.info.tags.contains t)).map
        (fun uf => uf.2.entries.countP (fun kv => ef.apply kv.2))).sum
  | .single url =>
      match findA url c with
      | some feed => feed.entries.countP (fun kv => ef.apply kv.2)
      | none => 0

/-- Sample data used to witness the view theorems on concrete input. -/
def entryA : FeedEntry :=
  { title := [104, 105], link := some [108, 49], pub_date := 100, read := false }

def entryB : FeedEntry :=
  { title := [104, 111], link := none, pub_date := 200, read := true }

def feedX : RssFeed :=
  { info := { name := [102, 49], tags := [[110]], last_update_result := .ok }
    entries := [([1, 2], entryA), ([3, 4], entryB)] }

def sampleCollection : RssCollection := [([117], feedX)]

/-- A fetched map that re-observes the read entry of feedX with a fresh
unread copy. -/
def reobserveB : FeedEntries := [([3, 4], { entryB with read := false })]

/-- Reduction modulo the 32-bit word size of blake3. -/
def mod32 (x : Nat) : Nat := x % 4294967296

/-- 32-bit wrapping addition. -/
def addw (a b : Nat) : Nat := mod32 (a + b)

/-- 32-bit right rotation. -/
def rotr (x n : Nat) : Nat := mod32 ((x >>> n) ||| (x <<< (32 - n)))

/-- The blake3 initialization vector (the sha-256 constants). -/
def ivc : Nat → Nat
  | 0 => 0x6A09E667
  | 1 => 0xBB67AE85
  | 2 => 0x3C6EF372
  | 3 => 0xA54FF53A
  | 4 => 0x510E527F
  | 5 => 0x9B05688C
  | 6 => 0x1F83D9AB
  | _ => 0x5BE0CD19

/-- Blake3 domain flags. -/
def flagChunkStart : Nat := 1

def flagChunkEnd : Nat := 2

def flagParent : Nat := 4

def flagRoot : Nat := 8

/-- A 16-word compression state. -/
structure V16 where
  s0 : Nat
  s1 : Nat
  s2 : Nat
  s3 : Nat
  s4 : Nat
  s5 : Nat
  s6 : Nat
  s7 : Nat
  s8 : Nat
  s9 : Nat
  s10 : Nat
  s11 : Nat
  s12 : Nat
  s13 : Nat
  s14 : Nat
  s15 : Nat
deriving DecidableEq, Repr

/-- A 16-word message block. -/
structure M16 where
  m0 : Nat
  m1 : Nat
  m2 : Nat
  m3 : Nat
  m4 : Nat
  m5 : Nat
  m6 : Nat
  m7 : Nat
  m8 : Nat
  m9 : Nat
  m10 : Nat
  m11 : Nat
  m12 : Nat
  m13 : Nat
  m14 : Nat
  m15 : Nat
deriving DecidableEq, Repr

/-- An 8-word chaining value. -/
structure CV8 where
  h0 : Nat
  h1 : Nat
  h2 : Nat
  h3 : Nat
  h4 : Nat
  h5 : Nat
  h6 : Nat
  h7 : Nat
deriving DecidableEq, Repr

/-- The blake3 quarter-round mixing function g. -/
def gmix (a b c d mx my : Nat) : Nat × Nat × Nat × Nat :=
  let a := addw (addw a b) mx
  let d := rotr (d ^^^ a) 16
  let c := addw c d
  let b := rotr (b ^^^ c) 12
  let a := addw (addw a b) my
  let d := rotr (d ^^^ a) 8
  let c := addw c d
  let b := rotr (b ^^^ c) 7
  (a, b, c, d)

/-- One full blake3 round: column mixing then diagonal mixing. -/
def roundB (s : V16) (m : M16) : V16 :=
  let (a0, b0, c0, d0) := gmix s.s0 s.s4 s.s8 s.s12 m.m0 m.m1
  let (a1, b1, c1, d1) := gmix s.s1 s.s5 s.s9 s.s13 m.m2 m.m3
  let (a2, b2, c2, d2) := gmix s.s2 s.s6 s.s10 s.s14 m.m4 m.m5
  let (a3, b3, c3, d3) := gmix s.s3 s.s7 s.s11 s.s15 m.m6 m.m7
  let (e0, f1, g2, h3) := gmix a0 b1 c2 d3 m.m8 m.m9
  let (e1, f2, g3, h0) := gmix a1 b2 c3 d0 m.m10 m.m11
  let (e2, f3, g0, h1) := gmix a2 b3 c0 d1 m.m12 m.m13
  let (e3, f0, g1, h2) := gmix a3 b0 c1 d2 m.m14 m.m15
  ⟨e0, e1, e2, e3, f0, f1, f2, f3, g0, g1, g2, g3, h0, h1, h2, h3⟩

/-- The blake3 message permutation, applied between rounds. -/
def permuteM (m : M16) : M16 :=
  ⟨m.m2, m.m6, m.m3, m.m10, m.m7, m.m0, m.m4, m.m13,
   m.m1, m.m11, m.m12, m.m5, m.m9, m.m14, m.m15, m.m8⟩

/-- The blake3 compression function: seven rounds with the permutation in
between, then the feed-forward xor of the two state halves (the second half
also xored with the input chaining value). -/
def compress (cv : CV8) (m : M16) (counter blockLen flags : Nat) : V16 :=
  let s : V16 := ⟨cv.h0, cv.h1, cv.h2, cv.h3, cv.h4, cv.h5, cv.h6, cv.h7,
    ivc 0, ivc 1, ivc 2, ivc 3,
    mod32 counter, mod32 (counter / 4294967296), blockLen, flags⟩
  let s := roundB s m
  let m := permuteM m
  let s := roundB s m
  let m := permuteM m
  let s := roundB s m
  let m := permuteM m
  let s := roundB s m
  let m := permuteM m
  let s := roundB s m
  let m := permuteM m
  let s := roundB s m
  let m := permuteM m
  let s := roundB s m
  ⟨s.s0 ^^^ s.s8, s.s1 ^^^ s.s9, s.s2 ^^^ s.s10, s.s3 ^^^ s.s11,
   s.s4 ^^^ s.s12, s.s5 ^^^ s.s13, s.s6 ^^^ s.s14, s.s7 ^^^ s.s15,
   s.s8 ^^^ cv.h0, s.s9 ^^^ cv.h1, s.s10 ^^^ cv.h2, s.s11 ^^^ cv.h3,
   s.s12 ^^^ cv.h4, s.s13 ^^^ cv.h5, s.s14 ^^^ cv.h6, s.s15 ^^^ cv.h7⟩

/-- The first eight output words: the chaining value of a compression. -/
def V16.toCV (s : V16) : CV8 :=
  ⟨s.s0, s.s1, s.s2, s.s3, s.s4, s.s5, s.s6, s.s7⟩

/-- Little-endian word at byte offset i of a block (missing bytes are the
zero padding of a short block). -/
def wordAt (b : List Nat) (i : Nat) : Nat :=
  b.getD i 0 + 256 * b.getD (i + 1) 0 + 65536 * b.getD (i + 2) 0 +
    16777216 * b.getD (i + 3) 0

/-- The sixteen little-endian words of a 64-byte block (zero padded). -/
def wordsOfBlock (b : List Nat) : M16 :=
  ⟨wordAt b 0, wordAt b 4, wordAt b 8, wordAt b 12,
   wordAt b 16, wordAt b 20, wordAt b 24, wordAt b 28,
   wordAt b 32, wordAt b 36, wordAt b 40, wordAt b 44,
   wordAt b 48, wordAt b 52, wordAt b 56, wordAt b 60⟩

/-- The blake3 key words of the unkeyed hash mode: the initialization
vector. -/
def ivCV : CV8 := ⟨ivc 0, ivc 1, ivc 2, ivc 3, ivc 4, ivc 5, ivc 6, ivc 7⟩

/-- Split a byte sequence into 64-byte blocks; an empty sequence is one empty
block.  The first argument is structural fuel, at least the list length. -/
def splitBlocks : Nat → List Nat → List (List Nat)
  | 0, l => [l]
  | fuel + 1, l =>
    if l.length ≤ 64 then [l]
    else l.take 64 :: splitBlocks fuel (l.drop 64)

/-- Split a byte sequence into 1024-byte chunks; an empty sequence is one
empty chunk.  The first argument is structural fuel, at least the list
length. -/
def splitChunks : Nat → List Nat → List (List Nat)
  | 0, l => [l]
  | fuel + 1, l =>
    if l.length ≤ 1024 then [l]
    else l.take 1024 :: splitChunks fuel (l.drop 1024)

/-- Compress the blocks of one chunk in sequence: the first block carries
CHUNK_START, the last carries CHUNK_END and, for the root chunk of a
single-chunk input, ROOT. -/
def chunkBlocksGo (cv : CV8) (counter : Nat) (isRoot isFirst : Bool) :
    List (List Nat) → CV8
  | [] => cv
  | [b] =>
      (compress cv (wordsOfBlock b) counter b.length
        ((if isFirst then flagChunkStart else 0) ||| flagChunkEnd |||
          (if isRoot then flagRoot else 0))).toCV
  | b :: b₂ :: rest =>
      chunkBlocksGo
        ((compress cv (wordsOfBlock b) counter b.length
          (if isFirst then flagChunkStart else 0)).toCV)
        counter isRoot false (b₂ :: rest)

/-- The chaining value of one chunk. -/
def chunkCV (chunk : List Nat) (counter : Nat) (isRoot : Bool) : CV8 :=
  chunkBlocksGo ivCV counter isRoot true (splitBlocks chunk.length chunk)

/-- A parent node of the blake3 tree: compress the two child chaining values
with the PARENT flag (and ROOT at the root). -/
def parentCV (l r : CV8) (isRoot : Bool) : CV8 :=
  (compress ivCV ⟨l.h0, l.h1, l.h2, l.h3, l.h4, l.h5, l.h6, l.h7,
    r.h0, r.h1, r.h2, r.h3, r.h4, r.h5, r.h6, r.h7⟩ 0 64
    (flagParent ||| (if isRoot then flagRoot else 0))).toCV

/-- The largest power of two strictly below n (for n at least 2): the left
subtree width of the blake3 chunk tree. -/
def largestPow2LT (n : Nat) : Nat :=
  go n 1
where
  go : Nat → Nat → Nat
    | 0, acc => acc
    | fuel + 1, acc => if acc * 2 < n then go fuel (acc * 2) else acc

/-- The chaining value of a subtree of chunks.  The first argument is
structural fuel, at least the number of chunks. -/
def subtreeCV : Nat → List (List Nat) → Nat → Bool → CV8
  | 0, _, _, _ => ivCV
  | _ + 1, [], _, _ => ivCV
  | _ + 1, [c], counter, isRoot => chunkCV c counter isRoot
  | fuel + 1, c₁ :: c₂ :: rest, counter, isRoot =>
      let chunks := c₁ :: c₂ :: rest
      let k := largestPow2LT chunks.length
      parentCV (subtreeCV fuel (chunks.take k) counter false)
        (subtreeCV fuel (chunks.drop k) (counter + k) false) isRoot

/-- Little-endian bytes of one 32-bit word. -/
def leBytes (w : Nat) : List Nat :=
  [w % 256, w / 256 % 256, w / 65536 % 256, w / 16777216 % 256]

/-- The 32 output bytes of a chaining value. -/
def cvBytes (cv : CV8) : List Nat :=
  leBytes cv.h0 ++ leBytes cv.h1 ++ leBytes cv.h2 ++ leBytes cv.h3 ++
    leBytes cv.h4 ++ leBytes cv.h5 ++ leBytes cv.h6 ++ leBytes cv.h7

/-- The 32-byte blake3 hash of a byte sequence (unkeyed mode, default output
length), as computed by blake3::Hasher. -/
def blake3Hash (data : List Nat) : List Nat :=
  let chunks := splitChunks data.length data
  cvBytes (subtreeCV chunks.length chunks 0 true)

/-- The incremental blake3 hasher: its state is the byte sequence absorbed so
far, and finalize hashes that sequence, exactly as blake3::Hasher behaves. -/
structure Blake3Hasher where
  absorbed : List Nat
deriving DecidableEq, Repr

/-- blake3::Hasher::new. -/
def Blake3Hasher.empty : Blake3Hasher := ⟨[]⟩

/-- blake3::Hasher::update. -/
def Blake3Hasher.update (h : Blake3Hasher) (bytes : List Nat) : Blake3Hasher :=
  ⟨h.absorbed ++ bytes⟩

/-- blake3::Hasher::finalize, truncated to the default 32 bytes. -/
def Blake3Hasher.finalize (h : Blake3Hasher) : List Nat :=
  blake3Hash h.absorbed

/-- EntryKey::from_entry (rss_com_lib/src/rss_feed.rs lines 80-92): hash the
title bytes, then the link bytes when a link is present, and finalize. -/
def EntryKey.from_entry (entry : FeedEntry) : EntryKey :=
  let hasher := Blake3Hasher.empty
  let hasher := hasher.update entry.title
  let hasher :=
    match entry.link with
    | some link => hasher.update link
    | none => hasher
  hasher.finalize

/-- The standard base64 alphabet. -/
def base64Table : List Char :=
  "ABCDEFGHIJKLMNOPQRSTUVWXYZabcdefghijklmnopqrstuvwxyz0123456789+/".toList

/-- One base64 character for a 6-bit group. -/
def b64c (n : Nat) : Char := base64Table.getD n 'A'

/-- Standard padded base64 encoding of a byte sequence (base64::encode). -/
def base64chars : List Nat → List Char
  | [] => []
  | [b1] =>
      [b64c (b1 >>> 2), b64c ((b1 &&& 3) <<< 4), '=', '=']
  | [b1, b2] =>
      [b64c (b1 >>> 2), b64c (((b1 &&& 3) <<< 4) ||| (b2 >>> 4)),
        b64c ((b2 &&& 15) <<< 2), '=']
  | b1 :: b2 :: b3 :: rest =>
      b64c (b1 >>> 2) :: b64c (((b1 &&& 3) <<< 4) ||| (b2 >>> 4)) ::
        b64c (((b2 &&& 15) <<< 2) ||| (b3 >>> 6)) :: b64c (b3 &&& 63) ::
        base64chars rest

/-- Base64 encoding as a string. -/
def base64encode (bytes : List Nat) : String :=
  String.mk (base64chars bytes)

/-- The link bytes that enter the key hash: nothing when the link is
absent. -/
def linkBytes : Option Url → List Nat
  | some l => l
  | none => []

/-- The title of the pinned fixture of hash_algorithm_change_guard
(rss_com_lib/src/rss_feed.rs lines 210-228): the UTF-8 bytes of the word
Title. -/
def titleFixture : StrB := [84, 105, 116, 108, 101]

/-- The HTTP statuses the modeled handlers produce. -/
inductive HttpStatus where
  | ok : HttpStatus
  | unauthorized : HttpStatus
  | forbidden : HttpStatus
  | badRequest : HttpStatus
deriving DecidableEq, Repr

/-- Numeric status codes. -/
def statusCode : HttpStatus → Nat
  | .ok => 200
  | .unauthorized => 401
  | .forbidden => 403
  | .badRequest => 400

/-- The collections registry content: UserId to RssCollection, in iteration
order (RssCollections without its lock). -/
abbrev Collections := List (UserId × RssCollection)

/-- Request and response body of /set_entry_read
(SetEntryReadRequestAndResponse in rss_com_lib/src/message_body.rs). -/
structure SetEntryReadBody where
  feed_url : Url
  entry_key : EntryKey
  read : Bool
deriving DecidableEq, Repr

/-- The /set_entry_read handler (src/src/rss_collection.rs lines 343-372):
look up the caller's collection, the feed, the entry; on any miss answer 401
and change nothing; otherwise set that entry's read flag and echo the request
body. -/
def set_entry_read (cols : Collections) (uid : UserId) (req : SetEntryReadBody) :
    HttpStatus × Collections × Option SetEntryReadBody :=
  match findA uid cols with
  | none => (.unauthorized, cols, none)
  | some collection =>
    match findA req.feed_url collection with
    | none => (.unauthorized, cols, none)
    | some feed =>
      match findA req.entry_key feed.entries with
      | none => (.unauthorized, cols, none)
      | some entry =>
          (.ok,
            setA uid
              (setA req.feed_url
                { feed with
                  entries := setA req.entry_key { entry with read := req.read }
                    feed.entries }
                collection)
              cols,
            some req)

/-- UserInfo (src/src/users.rs): login name and password. -/
structure UserInfo where
  name : StrB
  password : StrB
deriving DecidableEq, Repr

/-- AuthData::validate_password (src/src/auth.rs lines 52-64): find the user
with the given name, then compare the stored password. -/
def validate_password (users : List (UserId × UserInfo)) (user_name password : StrB) :
    Option UserId :=
  match users.find? (fun pair => pair.2.name = user_name) with
  | some (id, info) => if info.password = password then some id else none
  | none => none

/-- The /login handler (src/src/auth.rs lines 119-154), with the session
store write modeled as always succeeding, and each header given as its string
value when present.  Missing headers and failed validation both answer
Unauthorized. -/
def login (users : List (UserId × UserInfo))
    (user_id_header user_pass_header : Option StrB) : HttpStatus :=
  match user_id_header, user_pass_header with
  | some user_name, some password =>
    match validate_password users user_name password with
    | some _ => .ok
    | none => .unauthorized
  | _, _ => .unauthorized

/-- The default auth table (AuthData::default in src/src/auth.rs): the single
user test with password testing, id 1. -/
def defaultUsers : List (UserId × UserInfo) :=
  [(1, { name := [116, 101, 115, 116], password := [116, 101, 115, 116, 105, 110, 103] })]

/-- A freshly fetched and parsed feed (Feed in src/src/feed_requester.rs). -/
structure FetchedFeed where
  title : StrB
  entries : FeedEntries
deriving DecidableEq, Repr

/-- Outcome of the probe fetch of /add_feed; the error payload is dropped by
the handler. -/
inductive ProbeResult where
  | ok (feed : FetchedFeed) : ProbeResult
  | err : ProbeResult
deriving DecidableEq, Repr

/-- The feed /add_feed inserts for a successful probe: name from the fetched
title, tags from the request, last update marked successful. -/
def newFeedOf (nf : FetchedFeed) (tags : List StrB) : RssFeed :=
  { info := { name := nf.title, tags := tags, last_update_result := .ok }
    entries := nf.entries }

/-- The /add_feed handler (src/src/rss_collection.rs lines 261-311): create
the caller's collection if absent; if the URL is new, probe it, and only on a
successful probe insert the new feed; in every case answer 200. -/
def add_feed (cols : Collections) (uid : UserId) (url : Url) (tags : List StrB)
    (probe : ProbeResult) : HttpStatus × Collections :=
  let colsAndCollection :=
    match findA uid cols with
    | some c => (cols, c)
    | none => (cols ++ [(uid, ([] : RssCollection))], ([] : RssCollection))
  let cols₁ := colsAndCollection.1
  let collection := colsAndCollection.2
  if (findA url collection).isSome then
    (.ok, cols₁)
  else
    match probe with
    | .ok nf => (.ok, setA uid (collection ++ [(url, newFeedOf nf tags)]) cols₁)
    | .err => (.ok, cols₁)

/-- The caller's feed map, the empty map when no collection exists yet. -/
def callerFeeds (cols : Collections) (uid : UserId) : RssCollection :=
  (findA uid cols).getD []

/-- The snapshot worker of spawn_periodic_saving_task (src/src/main.rs lines
139-161): remember the registry hash at startup without saving, then, on
every tick, save exactly when the current hash differs from the remembered
one, and remember it.  The hash function is a parameter (the source feeds the
registry content to DefaultHasher); the result counts the saves. -/
def savingTaskWriteCount (hash : Collections → Nat) (startup : Collections)
    (ticks : List Collections) : Nat :=
  (ticks.foldl
    (fun acc reg =>
      let newHash := hash reg
      if newHash ≠ acc.1 then (newHash, acc.2 + 1) else acc)
    (hash startup, 0)).2

/-- A content-determined stand-in for the DefaultHasher content hash of the
registry: collisions of DefaultHasher are not modeled, identical content
always hashes identically, which is the only property the dirty check
uses. -/
def registryHashModel (cols : Collections) : Nat :=
  cols.length + (cols.map (fun uc => uc.2.length)).sum

/-- A non-empty sample registry for the snapshot scenario. -/
def sampleRegistry : Collections := [(117, sampleCollection)]

/-- The sample registry after one mutation (one more read entry). -/
def sampleRegistryMutated : Collections :=
  [(117, sampleCollection), (118, sampleCollection)]

/-- Events of a handler relevant to the lock discipline: acquiring a read or
write lock on the collections registry, releasing it, and awaiting network
input or output. -/
inductive LockEv where
  | lockRead : LockEv
  | lockWrite : LockEv
  | unlockEv : LockEv
  | awaitEv : LockEv
deriving DecidableEq, Repr

/-- Whether a trace awaits while a registry lock is held. -/
def holdsLockAcrossAwait : Bool → List LockEv → Bool
  | _, [] => false
  | _, .lockRead :: t => holdsLockAcrossAwait true t
  | _, .lockWrite :: t => holdsLockAcrossAwait true t
  | _, .unlockEv :: t => holdsLockAcrossAwait false t
  | held, .awaitEv :: t => if held then true else holdsLockAcrossAwait held t

/-- Lock and await events of the UpdateFeeds path of /feeds
(src/src/rss_collection.rs lines 182-244): read lock to snapshot the URLs,
released before awaiting request_feeds, write lock for the merge, then read
lock for the view. -/
def getFeedsUpdateTrace : List LockEv :=
  [.lockRead, .unlockEv, .awaitEv, .lockWrite, .unlockEv, .lockRead, .unlockEv]

/-- Lock and await events of update_all_collections (src/src/main.rs lines
182-228): read lock to union the URLs, released before awaiting
request_feeds, write lock for the merge. -/
def updateAllCollectionsTrace : List LockEv :=
  [.lockRead, .unlockEv, .awaitEv, .lockWrite, .unlockEv]

/-- Lock and await events of /add_feed (src/src/rss_collection.rs lines
274-308) on the path where the URL is new: the write lock is taken before the
probe fetch is awaited and released only afterwards. -/
def addFeedProbeTrace : List LockEv :=
  [.lockWrite, .awaitEv, .unlockEv]

theorem findA_append_left {κ ν : Type} [DecidableEq κ] {k : κ} {v : ν}
    {m : List (κ × ν)} (t : List (κ × ν)) (h : findA k m = some v) :
    findA k (m ++ t) = some v := by
  induction m with
  | nil => simp [findA] at h
  | cons hd tl ih =>
    obtain ⟨k', v'⟩ := hd
    by_cases hk : k = k'
    · simpa [findA, hk] using h
    · simp only [findA, if_neg hk] at h ⊢
      exact ih h

theorem findA_append_right {κ ν : Type} [DecidableEq κ] {k : κ}
    {m : List (κ × ν)} (t : List (κ × ν)) (h : findA k m = none) :
    findA k (m ++ t) = findA k t := by
  induction m with
  | nil => simp
  | cons hd tl ih =>
    obtain ⟨k', v'⟩ := hd
    by_cases hk : k = k'
    · simp [findA, hk] at h
    · simp only [findA, if_neg hk] at h ⊢
      exact ih h

theorem findA_orInsert_of_found {k k' : EntryKey} {v : FeedEntry} (v' : FeedEntry)
    {m : FeedEntries} (h : findA k m = some v) :
    findA k (orInsert m k' v') = some v := by
  unfold orInsert
  cases hf : findA k' m with
  | some _ => exact h
  | none => exact findA_append_left _ h

/-- Lookup after the merge fold of a successful update: a present key keeps
its old value, an absent key receives its first occurrence in the fetched
entries, if any. -/
theorem findA_foldl_orInsert (l : FeedEntries) (m : FeedEntries) (k : EntryKey) :
    findA k (l.foldl (fun m kv => orInsert m kv.1 kv.2) m) =
      match findA k m with
      | some v => some v
      | none => findA k l := by
  induction l generalizing m with
  | nil => cases hf : findA k m <;> simp [hf, findA]
  | cons hd tl ih =>
    obtain ⟨k₀, v₀⟩ := hd
    simp only [List.foldl_cons]
    rw [ih]
    cases hm : findA k m with
    | some v => rw [findA_orInsert_of_found v₀ hm]
    | none =>
      by_cases hk : k = k₀
      · subst hk
        unfold orInsert
        rw [hm, findA_append_right _ hm]
        simp [findA]
      · have : findA k (orInsert m k₀ v₀) = none := by
          unfold orInsert
          cases findA k₀ m with
          | some _ => exact hm
          | none =>
            rw [findA_append_right _ hm]
            simp [findA, hk]
        rw [this]
        simp [findA, hk]

/-- One update of any outcome preserves every present binding unchanged. -/
theorem update_entries_preserves (feed : RssFeed) (r : FetchResult)
    {k : EntryKey} {v : FeedEntry} (h : findA k feed.entries = some v) :
    findA k (feed.update_entries r).entries = some v := by
  cases r with
  | ok entries =>
    simp only [RssFeed.update_entries]
    rw [findA_foldl_orInsert, h]
  | err msg => simpa [RssFeed.update_entries] using h

theorem IsLawfulCmp.eq_substR {α : Type} {c : α → α → Ordering}
    (hc : IsLawfulCmp c) {a b : α} (h : c a b = .eq) (d : α) :
    c d b = c d a := by
  have hba : c b a = .eq := by
    have := hc.symm a b
    rw [h] at this
    cases hba : c b a <;> simp [hba, Ordering.swap] at this ⊢
  calc c d b = (c b d).swap := by rw [hc.symm]
    _ = (c a d).swap := by rw [hc.eq_substL hba]
    _ = c d a := (hc.symm d a).symm

theorem swapThen (x y : Ordering) : (x.then y).swap = x.swap.then y.swap := by
  cases x <;> rfl

theorem cmpLin_eq_iff {α : Type} [LinearOrder α] {a b : α} : cmpLin a b = .eq ↔ a = b := by
  unfold cmpLin
  rcases lt_trichotomy a b with h | h | h
  · simp [h, ne_of_lt h]
  · subst h
    simp [lt_irrefl]
  · simp [h, lt_asymm h, (ne_of_gt h : a ≠ b)]

theorem cmpLin_lt_iff {α : Type} [LinearOrder α] {a b : α} : cmpLin a b = .lt ↔ a < b := by
  unfold cmpLin
  rcases lt_trichotomy a b with h | h | h
  · simp [h]
  · subst h
    simp [lt_irrefl]
  · simp [h, lt_asymm h]

theorem cmpLin_lawful {α : Type} [LinearOrder α] : IsLawfulCmp (cmpLin (α := α)) where
  symm a b := by
    unfold cmpLin
    rcases lt_trichotomy a b with h | h | h
    · simp [h, lt_asymm h, Ordering.swap]
    · subst h
      simp [lt_irrefl, Ordering.swap]
    · simp [h, lt_asymm h, Ordering.swap]
  lt_trans := by
    intro a b d hab hbd
    rw [cmpLin_lt_iff] at hab hbd ⊢
    exact lt_trans hab hbd
  eq_substL := by
    intro a b hab d
    rw [cmpLin_eq_iff] at hab
    rw [hab]

theorem cmpList_lawful {α : Type} {c : α → α → Ordering} (hc : IsLawfulCmp c) :
    IsLawfulCmp (cmpList c) where
  symm a b := by
    induction a generalizing b with
    | nil => cases b <;> rfl
    | cons x xs ih =>
      cases b with
      | nil => rfl
      | cons y ys =>
        show (c x y).then (cmpList c xs ys) = ((c y x).then (cmpList c ys xs)).swap
        rw [swapThen, ← hc.symm, ← ih]
  lt_trans := by
    intro a b d hab hbd
    induction a generalizing b d with
    | nil =>
      cases b with
      | nil => simp [cmpList] at hab
      | cons y ys =>
        cases d with
        | nil => simp [cmpList] at hbd
        | cons z zs => simp [cmpList]
    | cons x xs ih =>
      cases b with
      | nil => simp [cmpList] at hab
      | cons y ys =>
        cases d with
        | nil => simp [cmpList] at hbd
        | cons z zs =>
          simp only [cmpList, Ordering.then_eq_lt] at hab hbd ⊢
          rcases hab with hxy | ⟨hxy, hxs⟩ <;> rcases hbd with hyz | ⟨hyz, hys⟩
          · exact Or.inl (hc.lt_trans hxy hyz)
          · exact Or.inl (by rw [← hc.eq_substR hyz x] at hxy; exact hxy)
          · exact Or.inl (by rw [hc.eq_substL hxy z] at hyz; exact hyz)
          · right
            refine ⟨?_, ih hxs hys⟩
            rw [← hc.eq_substL hxy z]
            exact hyz
  eq_substL := by
    intro a b hab d
    induction a generalizing b d with
    | nil =>
      cases b with
      | nil => rfl
      | cons y ys => simp [cmpList] at hab
    | cons x xs ih =>
      cases b with
      | nil => simp [cmpList] at hab
      | cons y ys =>
        simp only [cmpList, Ordering.then_eq_eq] at hab
        cases d with
        | nil => rfl
        | cons z zs =>
          show (c y z).then (cmpList c ys zs) = (c x z).then (cmpList c xs zs)
          rw [hc.eq_substL hab.1 z, ih hab.2]

theorem cmpOpt_lawful {α : Type} {c : α → α → Ordering} (hc : IsLawfulCmp c) :
    IsLawfulCmp (cmpOpt c) where
  symm a b := by
    cases a <;> cases b
    · rfl
    · rfl
    · rfl
    · exact hc.symm _ _
  lt_trans := by
    intro a b d hab hbd
    cases a <;> cases b <;> cases d <;>
      simp_all [cmpOpt]
    exact hc.lt_trans hab hbd
  eq_substL := by
    intro a b hab d
    cases a <;> cases b <;> simp_all [cmpOpt]
    cases d <;> simp [cmpOpt]
    exact hc.eq_substL hab _

theorem proj_lawful {α β : Type} {c : β → β → Ordering} (hc : IsLawfulCmp c)
    (f : α → β) : IsLawfulCmp (fun a b => c (f a) (f b)) where
  symm a b := hc.symm (f a) (f b)
  lt_trans h₁ h₂ := hc.lt_trans h₁ h₂
  eq_substL h d := hc.eq_substL h (f d)

theorem flip_lawful {α : Type} {c : α → α → Ordering} (hc : IsLawfulCmp c) :
    IsLawfulCmp (fun a b => c b a) where
  symm a b := hc.symm b a
  lt_trans h₁ h₂ := hc.lt_trans h₂ h₁
  eq_substL h d := (hc.eq_substR h d).symm

theorem then_lawful {α : Type} {c₁ c₂ : α → α → Ordering}
    (h₁ : IsLawfulCmp c₁) (h₂ : IsLawfulCmp c₂) :
    IsLawfulCmp (fun a b => (c₁ a b).then (c₂ a b)) where
  symm a b := by rw [h₁.symm, h₂.symm, swapThen]
  lt_trans := by
    intro a b d hab hbd
    simp only [Ordering.then_eq_lt] at hab hbd ⊢
    rcases hab with hab | ⟨hab, hab₂⟩ <;> rcases hbd with hbd | ⟨hbd, hbd₂⟩
    · exact Or.inl (h₁.lt_trans hab hbd)
    · exact Or.inl (by rw [h₁.eq_substR hbd a]; exact hab)
    · exact Or.inl (by rw [h₁.eq_substL hab d] at hbd; exact hbd)
    · right
      refine ⟨by rw [← h₁.eq_substL hab d]; exact hbd, ?_⟩
      exact h₂.lt_trans hab₂ hbd₂
  eq_substL := by
    intro a b hab d
    simp only [Ordering.then_eq_eq] at hab
    rw [show c₁ b d = c₁ a d from h₁.eq_substL hab.1 d,
      show c₂ b d = c₂ a d from h₂.eq_substL hab.2 d]

theorem cmpCom_lawful : IsLawfulCmp cmpCom :=
  then_lawful
    (proj_lawful (flip_lawful (cmpLin_lawful (α := Int))) ComFeedEntry.pub_date)
    (then_lawful
      (proj_lawful (cmpList_lawful (cmpLin_lawful (α := Nat))) ComFeedEntry.title)
      (then_lawful
        (proj_lawful (cmpOpt_lawful (cmpList_lawful (cmpLin_lawful (α := Nat))))
          ComFeedEntry.link)
        (then_lawful
          (proj_lawful (cmpLin_lawful (α := Bool)) ComFeedEntry.read)
          (proj_lawful (cmpList_lawful (cmpLin_lawful (α := Nat))) ComFeedEntry.key))))

instance : IsTotal ComFeedEntry comLe where
  total a b := by
    unfold comLe
    cases h : cmpCom a b with
    | lt => exact Or.inl (by simp [h])
    | eq => exact Or.inl (by simp [h])
    | gt =>
      right
      have := cmpCom_lawful.symm a b
      rw [h] at this
      intro hba
      rw [hba] at this
      simp [Ordering.swap] at this

instance : IsTrans ComFeedEntry comLe where
  trans a b d hab hbd := by
    unfold comLe at hab hbd ⊢
    intro had
    cases h1 : cmpCom a b with
    | gt => exact hab h1
    | eq =>
      rw [cmpCom_lawful.eq_substL h1 d] at hbd
      exact hbd had
    | lt =>
      cases h2 : cmpCom b d with
      | gt => exact hbd h2
      | eq =>
        have := cmpCom_lawful.eq_substR h2 a
        rw [had] at this
        rw [← this] at h1
        simp at h1
      | lt =>
        have := cmpCom_lawful.lt_trans h1 h2
        rw [had] at this
        simp at this

theorem collectEntries_length (c : RssCollection) (ff : FeedsFilter)
    (ef : EntryTypeFilter) :
    (collectEntries c ff ef).length = countMatching c ff ef := by
  have hfeed : ∀ (url : Url) (feed : RssFeed),
      (feedComEntries url feed ef).length =
        feed.entries.countP (fun kv => ef.apply kv.2) := by
    intro url feed
    simp [feedComEntries, List.countP_eq_length_filter]
  cases ff with
  | all =>
    simp only [collectEntries, countMatching, List.length_flatten, List.map_map]
    congr 1
    simp [Function.comp, hfeed]
  | tag t =>
    simp only [collectEntries, countMatching, List.length_flatten, List.map_map]
    congr 1
    simp [Function.comp, hfeed]
  | single url =>
    simp only [collectEntries, countMatching]
    cases findA url c with
    | some feed => exact hfeed url feed
    | none => rfl

/-- C2: any two entries of the view, in result order, are related by the
comparator of Ord for ComFeedEntry: pub_date descending, then title, link
(absent before present), read and key ascending, key byte-lexicographic. -/
theorem view_pairwise_ordered (c : RssCollection) (amount : Nat)
    (ff : FeedsFilter) (ef : EntryTypeFilter)
    (i j : Fin (get_sorted_com_entries_with_filter c amount ff ef).1.length)
    (hij : i < j) :
    cmpCom ((get_sorted_com_entries_with_filter c amount ff ef).1.get i)
      ((get_sorted_com_entries_with_filter c amount ff ef).1.get j) ≠ .gt := by
  have hsorted : List.Sorted comLe
      (List.insertionSort comLe (collectEntries c ff ef)) :=
    List.sorted_insertionSort comLe (collectEntries c ff ef)
  have hsub : List.Sublist (get_sorted_com_entries_with_filter c amount ff ef).1
      (List.insertionSort comLe (collectEntries c ff ef)) :=
    List.take_sublist amount _
  have hpair : (get_sorted_com_entries_with_filter c amount ff ef).1.Pairwise comLe :=
    hsorted.sublist hsub
  exact List.pairwise_iff_get.mp hpair i j hij

/-- Witness for C2 at a concrete collection: the two entries of the sample
view are ordered by the comparator. -/
theorem view_pairwise_ordered_witness :
    cmpCom ((get_sorted_com_entries_with_filter sampleCollection 10 .all .all).1.get
        ⟨0, by decide⟩)
      ((get_sorted_com_entries_with_filter sampleCollection 10 .all .all).1.get
        ⟨1, by decide⟩) ≠ .gt :=
  view_pairwise_ordered sampleCollection 10 .all .all ⟨0, by decide⟩ ⟨1, by decide⟩
    (by decide)

/-- C3: the view returns at most min amount total entries, and total is the
number of entries matching both filters, counted before truncation. -/
theorem view_length_and_total (c : RssCollection) (amount : Nat)
    (ff : FeedsFilter) (ef : EntryTypeFilter) :
    (get_sorted_com_entries_with_filter c amount ff ef).1.length ≤
        min amount (get_sorted_com_entries_with_filter c amount ff ef).2
      ∧ (get_sorted_com_entries_with_filter c amount ff ef).2 =
        countMatching c ff ef := by
  constructor
  · simp only [get_sorted_com_entries_with_filter, List.length_take]
    exact Nat.le_refl _
  · simp only [get_sorted_com_entries_with_filter, List.length_insertionSort]
    exact collectEntries_length c ff ef

/-- C1: a successful merge only ever adds entries: every binding present
before is present unchanged afterwards (its read flag included), a binding
present afterwards was either already there or was inserted for a key absent
before, and a read entry stays intact across any sequence of merges. -/
theorem update_entries_monotonic_merge (feed : RssFeed) (new : FeedEntries) :
    (∀ k v, findA k feed.entries = some v →
      findA k (feed.update_entries (.ok new)).entries = some v)
    ∧ (∀ k v, findA k (feed.update_entries (.ok new)).entries = some v →
      findA k feed.entries = some v ∨
        (findA k feed.entries = none ∧ findA k new = some v))
    ∧ (∀ (ms : List FetchResult) k v,
      findA k feed.entries = some v → v.read = true →
      findA k ((ms.foldl RssFeed.update_entries feed).entries) = some v) := by
  refine ⟨?_, ?_, ?_⟩
  · intro k v h
    exact update_entries_preserves feed (.ok new) h
  · intro k v h
    simp only [RssFeed.update_entries] at h
    rw [findA_foldl_orInsert] at h
    cases hm : findA k feed.entries with
    | some v₀ =>
      rw [hm] at h
      exact Or.inl h
    | none =>
      rw [hm] at h
      exact Or.inr ⟨rfl, h⟩
  · intro ms
    induction ms generalizing feed with
    | nil => intro k v h _; exact h
    | cons m t ih =>
      intro k v h hr
      exact ih (feed.update_entries m) k v
        (update_entries_preserves feed m h) hr

/-- Witness for C1: the read entry of feedX survives two merges that
re-observe its key with an unread copy. -/
theorem update_entries_monotonic_merge_witness :
    findA [3, 4] (([FetchResult.ok reobserveB, FetchResult.ok reobserveB].foldl
      RssFeed.update_entries feedX).entries) = some entryB :=
  (update_entries_monotonic_merge feedX reobserveB).2.2
    [FetchResult.ok reobserveB, FetchResult.ok reobserveB] [3, 4] entryB
    (by decide) (by decide)

/-- C5: merging an error result records the error message as the last update
result and leaves the entries and the rest of the info untouched, and a later
merge records only its own outcome. -/
theorem update_entries_error_spec (feed : RssFeed) (msg : StrB) (new : FeedEntries) :
    (feed.update_entries (.err msg)).entries = feed.entries
    ∧ (feed.update_entries (.err msg)).info.last_update_result = .error msg
    ∧ (feed.update_entries (.err msg)).info.name = feed.info.name
    ∧ (feed.update_entries (.err msg)).info.tags = feed.info.tags
    ∧ ((feed.update_entries (.err msg)).update_entries (.ok new)).info.last_update_result
      = .ok
    ∧ (feed.update_entries (.ok new)).info.last_update_result = .ok :=
  ⟨rfl, rfl, rfl, rfl, rfl, rfl⟩

theorem cvBytes_length (cv : CV8) : (cvBytes cv).length = 32 := by
  simp [cvBytes, leBytes]

set_option maxRecDepth 8000 in
/-- C4: the entry key is the blake3 hash of the title bytes directly followed
by the link bytes (nothing when the link is absent, no separator, no length
prefix); it depends on nothing but title and link; it is 32 bytes long; and
the pinned fixture of the repository holds: the entry titled Title with no
link maps to the key whose standard base64 encoding is the guarded string. -/
theorem from_entry_spec :
    (∀ entry : FeedEntry,
      EntryKey.from_entry entry = blake3Hash (entry.title ++ linkBytes entry.link))
    ∧ (∀ (t : StrB) (l : Option Url) (d₁ d₂ : Int) (r₁ r₂ : Bool),
      EntryKey.from_entry ⟨t, l, d₁, r₁⟩ = EntryKey.from_entry ⟨t, l, d₂, r₂⟩)
    ∧ (∀ entry : FeedEntry, (EntryKey.from_entry entry).length = 32)
    ∧ base64encode (EntryKey.from_entry
        { title := titleFixture, link := none, pub_date := 0, read := false }) =
      "+vjG8EtOdpGWNayLWPbELTE7RcppsbgbTvIlWG/76ls=" := by
  refine ⟨?_, ?_, ?_, ?_⟩
  · intro entry
    cases h : entry.link <;>
      simp [EntryKey.from_entry, Blake3Hasher.empty, Blake3Hasher.update,
        Blake3Hasher.finalize, linkBytes, h]
  · intro t l d₁ d₂ r₁ r₂
    rfl
  · intro entry
    cases h : entry.link <;>
      simp [EntryKey.from_entry, Blake3Hasher.empty, Blake3Hasher.update,
        Blake3Hasher.finalize, blake3Hash, h, cvBytes_length]
  · decide

theorem findA_setA_ne {κ ν : Type} [DecidableEq κ] {k u : κ} (v : ν)
    (l : List (κ × ν)) (h : u ≠ k) : findA u (setA k v l) = findA u l := by
  induction l with
  | nil => rfl
  | cons hd tl ih =>
    obtain ⟨k', v'⟩ := hd
    by_cases hk : k = k'
    · subst hk
      simp [setA, findA, if_neg h]
    · by_cases hu : u = k'
      · simp [setA, findA, if_neg hk, hu]
      · simp [setA, findA, if_neg hk, if_neg hu, ih]

theorem findA_setA_eq {κ ν : Type} [DecidableEq κ] {k : κ} (v : ν)
    {l : List (κ × ν)} (h : (findA k l).isSome) :
    findA k (setA k v l) = some v := by
  induction l with
  | nil => simp [findA] at h
  | cons hd tl ih =>
    obtain ⟨k', v'⟩ := hd
    by_cases hk : k = k'
    · simp [setA, findA, hk]
    · simp only [findA, if_neg hk] at h
      simp [setA, findA, if_neg hk, ih h]

/-- C6: /set_entry_read answers 401 and leaves the registry untouched when
the caller has no collection, the feed is not in it, or the entry is not in
the feed; when all three exist it sets exactly that entry's read flag, leaves
every other user's collection unchanged, and echoes the request body. -/
theorem set_entry_read_spec (cols : Collections) (uid : UserId)
    (req : SetEntryReadBody) :
    (findA uid cols = none →
      set_entry_read cols uid req = (.unauthorized, cols, none))
    ∧ (∀ c, findA uid cols = some c → findA req.feed_url c = none →
      set_entry_read cols uid req = (.unauthorized, cols, none))
    ∧ (∀ c f, findA uid cols = some c → findA req.feed_url c = some f →
      findA req.entry_key f.entries = none →
      set_entry_read cols uid req = (.unauthorized, cols, none))
    ∧ (∀ c f e, findA uid cols = some c → findA req.feed_url c = some f →
      findA req.entry_key f.entries = some e →
      set_entry_read cols uid req =
        (.ok,
          setA uid
            (setA req.feed_url
              { f with entries :=
                  (setA req.entry_key { e with read := req.read } f.entries) } c)
            cols,
          some req))
    ∧ (∀ u, u ≠ uid → findA u (set_entry_read cols uid req).2.1 = findA u cols)
    ∧ statusCode .unauthorized = 401 := by
  refine ⟨?_, ?_, ?_, ?_, ?_, rfl⟩
  · intro h
    simp [set_entry_read, h]
  · intro c hc hf
    simp [set_entry_read, hc, hf]
  · intro c f hc hf he
    simp [set_entry_read, hc, hf, he]
  · intro c f e hc hf he
    simp [set_entry_read, hc, hf, he]
  · intro u hu
    cases hc : findA uid cols with
    | none => simp [set_entry_read, hc]
    | some c =>
      cases hf : findA req.feed_url c with
      | none => simp [set_entry_read, hc, hf]
      | some f =>
        cases he : findA req.entry_key f.entries with
        | none => simp [set_entry_read, hc, hf, he]
        | some e =>
          simp only [set_entry_read, hc, hf, he]
          exact findA_setA_ne _ _ hu

/-- Witness for C6: on the sample registry, setting the unread sample entry
read succeeds, mutates exactly that entry, and echoes the request. -/
theorem set_entry_read_spec_witness :
    set_entry_read sampleRegistry 117
      { feed_url := [117], entry_key := [1, 2], read := true } =
      (.ok,
        setA 117
          (setA [117]
            { feedX with entries :=
                (setA [1, 2] { entryA with read := true } feedX.entries) }
            sampleCollection)
          sampleRegistry,
        some { feed_url := [117], entry_key := [1, 2], read := true }) :=
  (set_entry_read_spec sampleRegistry 117
      { feed_url := [117], entry_key := [1, 2], read := true }).2.2.2.1
    sampleCollection feedX entryA (by decide) (by decide) (by decide)

/-- Counterexample for C7: the saving task records the startup hash without
writing, so a non-empty registry left unmutated for two ticks produces zero
snapshot writes, not the one write the claim asserts. -/
theorem snapshot_two_ticks_no_write :
    savingTaskWriteCount registryHashModel sampleRegistry
        [sampleRegistry, sampleRegistry] = 0
      ∧ savingTaskWriteCount registryHashModel sampleRegistry
        [sampleRegistry, sampleRegistry] ≠ 1 := by
  decide

/-- C7 amended: the worker records the registry hash at startup without
writing; each tick writes exactly when its hash differs from the recorded
one, recording the new hash.  Hence two unmutated ticks give zero writes, a
mutation followed by a tick gives exactly one more, a further unmutated tick
gives none, and unchanged hashes never write. -/
theorem snapshot_dirty_check_amended (hash : Collections → Nat)
    (r r' : Collections) (hne : hash r' ≠ hash r) :
    savingTaskWriteCount hash r [r, r] = 0
    ∧ savingTaskWriteCount hash r [r, r, r', r'] = 1
    ∧ (∀ ticks : List Collections, (∀ t ∈ ticks, hash t = hash r) →
      savingTaskWriteCount hash r ticks = 0) := by
  refine ⟨?_, ?_, ?_⟩
  · simp [savingTaskWriteCount]
  · simp [savingTaskWriteCount, hne]
  · intro ticks hall
    have aux : ∀ (l : List Collections) (n : Nat), (∀ t ∈ l, hash t = hash r) →
        (l.foldl
          (fun acc reg =>
            let newHash := hash reg
            if newHash ≠ acc.1 then (newHash, acc.2 + 1) else acc)
          (hash r, n)) = (hash r, n) := by
      intro l
      induction l with
      | nil => intro n _; rfl
      | cons hd tl ih =>
        intro n hl
        have hhd : hash hd = hash r := hl hd (List.mem_cons_self hd tl)
        simp only [List.foldl_cons, hhd, ne_eq, not_true_eq_false, if_neg,
          not_not]
        exact ih n (fun t ht => hl t (List.mem_cons_of_mem hd ht))
    unfold savingTaskWriteCount
    rw [aux ticks 0 hall]

/-- Witness for C7 amended, on the sample registry with the modeled content
hash: a mutation between the second and third tick produces exactly one
write. -/
theorem snapshot_dirty_check_amended_witness :
    savingTaskWriteCount registryHashModel sampleRegistry
      [sampleRegistry, sampleRegistry, sampleRegistryMutated,
        sampleRegistryMutated] = 1 :=
  (snapshot_dirty_check_amended registryHashModel sampleRegistry
    sampleRegistryMutated (by decide)).2.1

/-- Counterexample for C8: a /login request without the credential headers is
answered 401 Unauthorized by the handler, not 400. -/
theorem login_missing_headers_not_400 :
    login defaultUsers none none = .unauthorized
      ∧ statusCode (login defaultUsers none none) ≠ 400 := by
  decide

/-- C8 amended: a /login request in which the user name header or the
password header is absent is answered with status 401. -/
theorem login_missing_headers_amended (users : List (UserId × UserInfo))
    (uh ph : Option StrB) (h : uh = none ∨ ph = none) :
    login users uh ph = .unauthorized
      ∧ statusCode (login users uh ph) = 401 := by
  rcases h with h | h
  · subst h
    exact ⟨rfl, rfl⟩
  · subst h
    cases uh <;> exact ⟨rfl, rfl⟩

/-- Witness for C8 amended: the default auth table with a present user header
but no password header. -/
theorem login_missing_headers_amended_witness :
    login defaultUsers (some [116, 101, 115, 116]) none = .unauthorized
      ∧ statusCode (login defaultUsers (some [116, 101, 115, 116]) none) = 401 :=
  login_missing_headers_amended defaultUsers (some [116, 101, 115, 116]) none
    (Or.inr rfl)

/-- C9 evaluated on the three fetch-and-lock paths: the per-user refresh and
the background refresh release the registry lock before awaiting, but
/add_feed holds the registry write lock across the probe fetch await, so the
claim that every such path releases the lock first is false on the code (the
TODO of 2024-08-21 in the source acknowledges the defect). -/
theorem lock_discipline_eval :
    holdsLockAcrossAwait false getFeedsUpdateTrace = false
    ∧ holdsLockAcrossAwait false updateAllCollectionsTrace = false
    ∧ holdsLockAcrossAwait false addFeedProbeTrace = true := by
  decide

theorem findA_append_single_ne {κ ν : Type} [DecidableEq κ] {u k : κ} (v : ν)
    (l : List (κ × ν)) (h : u ≠ k) : findA u (l ++ [(k, v)]) = findA u l := by
  cases hf : findA u l with
  | some w => exact findA_append_left _ hf
  | none =>
    rw [findA_append_right _ hf]
    simp [findA, h]

theorem findA_append_single_self {κ ν : Type} [DecidableEq κ] {k : κ} (v : ν)
    {l : List (κ × ν)} (h : findA k l = none) : findA k (l ++ [(k, v)]) = some v := by
  rw [findA_append_right _ h]
  simp [findA]

/-- C10: /add_feed always answers 200; when the URL is already in the
caller's collection, or the probe fetch fails, the caller's feed map is
unchanged (a caller without a collection yet is an empty feed map); a feed is
inserted exactly when the URL was absent and the probe succeeded; other
users' collections are never touched. -/
theorem add_feed_spec (cols : Collections) (uid : UserId) (url : Url)
    (tags : List StrB) (probe : ProbeResult) :
    (add_feed cols uid url tags probe).1 = .ok
    ∧ statusCode (add_feed cols uid url tags probe).1 = 200
    ∧ ((findA url (callerFeeds cols uid)).isSome →
      callerFeeds (add_feed cols uid url tags probe).2 uid = callerFeeds cols uid)
    ∧ (probe = .err →
      callerFeeds (add_feed cols uid url tags probe).2 uid = callerFeeds cols uid)
    ∧ (∀ nf, findA url (callerFeeds cols uid) = none → probe = .ok nf →
      callerFeeds (add_feed cols uid url tags probe).2 uid =
        callerFeeds cols uid ++ [(url, newFeedOf nf tags)])
    ∧ (∀ u, u ≠ uid →
      findA u (add_feed cols uid url tags probe).2 = findA u cols) := by
  have hstatus : (add_feed cols uid url tags probe).1 = .ok := by
    cases hu : findA uid cols with
    | some c =>
      by_cases hurl : (findA url c).isSome
      · simp [add_feed, hu, hurl]
      · cases probe <;> simp [add_feed, hu, hurl]
    | none =>
      cases probe <;> simp [add_feed, hu, findA]
  refine ⟨hstatus, by rw [hstatus]; rfl, ?_, ?_, ?_, ?_⟩
  · intro hurl
    cases hu : findA uid cols with
    | some c =>
      simp only [callerFeeds, hu, Option.getD_some] at hurl ⊢
      simp [add_feed, hu, hurl]
    | none =>
      simp only [callerFeeds, hu, Option.getD_none] at hurl
      simp [findA] at hurl
  · intro hprobe
    subst hprobe
    cases hu : findA uid cols with
    | some c =>
      by_cases hurl : (findA url c).isSome
      · simp [add_feed, hu, hurl, callerFeeds]
      · simp [add_feed, hu, hurl, callerFeeds]
    | none =>
      simp only [add_feed, hu, findA, Option.isSome_none, Bool.false_eq_true,
        if_false, callerFeeds]
      rw [findA_append_single_self ([] : RssCollection) hu]
      rfl
  · intro nf hurl hprobe
    subst hprobe
    cases hu : findA uid cols with
    | some c =>
      simp only [callerFeeds, hu, Option.getD_some] at hurl ⊢
      have hnotsome : ¬(findA url c).isSome = true := by simp [hurl]
      have hset : findA uid (setA uid (c ++ [(url, newFeedOf nf tags)]) cols) =
          some (c ++ [(url, newFeedOf nf tags)]) :=
        findA_setA_eq _ (by simp [hu])
      simp [add_feed, hu, hnotsome, hset]
    | none =>
      simp only [callerFeeds, hu, Option.getD_none]
      have hmem : (findA uid (cols ++ [(uid, ([] : RssCollection))])).isSome := by
        rw [findA_append_single_self ([] : RssCollection) hu]
        rfl
      have hset : findA uid
          (setA uid [(url, newFeedOf nf tags)]
            (cols ++ [(uid, ([] : RssCollection))])) =
          some [(url, newFeedOf nf tags)] :=
        findA_setA_eq _ hmem
      simp [add_feed, hu, findA, hset]
  · intro u hu'
    cases hu : findA uid cols with
    | some c =>
      by_cases hurl : (findA url c).isSome
      · simp [add_feed, hu, hurl]
      · cases probe with
        | ok nf =>
          simp only [add_feed, hu, hurl, if_false]
          exact findA_setA_ne _ _ hu'
        | err => simp [add_feed, hu, hurl]
    | none =>
      cases probe with
      | ok nf =>
        simp only [add_feed, hu, findA, Option.isSome_none, Bool.false_eq_true,
          if_false]
        rw [findA_setA_ne _ _ hu']
        exact findA_append_single_ne _ _ hu'
      | err =>
        simp only [add_feed, hu, findA, Option.isSome_none, Bool.false_eq_true,
          if_false]
        exact findA_append_single_ne _ _ hu'

/-- Witness for C10: adding a feed whose probe fails, for a caller who has a
collection, leaves the caller's feed map unchanged. -/
theorem add_feed_spec_witness :
    callerFeeds (add_feed sampleRegistry 117 [122] [[110]] .err).2 117 =
      callerFeeds sampleRegistry 117 :=
  (add_feed_spec sampleRegistry 117 [122] [[110]] .err).2.2.2.1 rfl
